import Mathlib

/-!
Formal model of the user-account directory module of the
JustFlourProjectManagement server (`server/src/models/user.js`).

The module keeps an in-memory `Map` of user records keyed by id and exposes
`createUser`, `findUserById`, `findUserByEmail`, `getAllUsers`, `getUserStats`,
`updateUser`, `deleteUser`, `verifyPassword`, `sanitizeUser` and `clearUsers`.
We model the store as a `List User` in insertion order (a JS `Map` iterates in
insertion order; `set` on an existing key replaces in place, `set` on a new key
appends).  External collaborators are passed explicitly: the bcrypt hash as a
function `hash : String → String`, bcrypt comparison as
`compare : String → String → Bool`, the uuid generator as a `freshId : String`
argument, and the clock as a `now : String` argument (ISO timestamp strings).

JS string operations used by the module (`toLowerCase`, `trim`, `includes`)
are modelled over the character list of a `String` (ASCII semantics, matching
`Char.toLower`).
-/

/-! ### Character-level facts about `Char.toLower` and whitespace -/

/-- `Char.ofNat` of a valid code point has that code point as `toNat`. -/
theorem char_toNat_ofNat (n : Nat) (h : n.isValidChar) : (Char.ofNat n).toNat = n := by
  rw [Char.ofNat, dif_pos h]
  rfl

/-- `Char.toLower` leaves non-uppercase characters unchanged. -/
theorem char_toLower_of_not_upper (c : Char) (h : ¬ (c.toNat ≥ 65 ∧ c.toNat ≤ 90)) :
    c.toLower = c := by
  rw [Char.toLower]
  exact if_neg h

/-- Code point of `Char.toLower`: uppercase ASCII letters are shifted by 32. -/
theorem char_toNat_toLower (c : Char) :
    c.toLower.toNat = if 65 ≤ c.toNat ∧ c.toNat ≤ 90 then c.toNat + 32 else c.toNat := by
  by_cases h : 65 ≤ c.toNat ∧ c.toNat ≤ 90
  · rw [if_pos h, Char.toLower, if_pos h]
    exact char_toNat_ofNat _ (Or.inl (by omega))
  · rw [if_neg h, char_toLower_of_not_upper c h]

/-- Lower-casing a character is idempotent. -/
theorem char_toLower_toLower (c : Char) : c.toLower.toLower = c.toLower := by
  have h1 := char_toNat_toLower c
  apply char_toLower_of_not_upper
  by_cases h : 65 ≤ c.toNat ∧ c.toNat ≤ 90
  · rw [if_pos h] at h1; omega
  · rw [if_neg h] at h1; omega

/-- Characters are equal iff their code points are. -/
theorem char_eq_iff_toNat (a b : Char) : a = b ↔ a.toNat = b.toNat := by
  constructor
  · intro h; rw [h]
  · intro h
    exact Char.ext (UInt32.toNat.inj h)

/-- `Char.isWhitespace` in terms of code points. -/
theorem char_isWhitespace_iff (c : Char) :
    c.isWhitespace = true ↔ (c.toNat = 32 ∨ c.toNat = 9 ∨ c.toNat = 13 ∨ c.toNat = 10) := by
  rw [Char.isWhitespace]
  simp only [Bool.or_eq_true, decide_eq_true_eq, char_eq_iff_toNat]
  have h1 : (' ' : Char).toNat = 32 := by decide
  have h2 : ('\t' : Char).toNat = 9 := by decide
  have h3 : ('\r' : Char).toNat = 13 := by decide
  have h4 : ('\n' : Char).toNat = 10 := by decide
  rw [h1, h2, h3, h4]
  tauto

/-- Lower-casing preserves whitespace-ness. -/
theorem char_isWhitespace_toLower (c : Char) : c.toLower.isWhitespace = c.isWhitespace := by
  have h1 := char_toNat_toLower c
  by_cases h : 65 ≤ c.toNat ∧ c.toNat ≤ 90
  · rw [if_pos h] at h1
    have ha : c.toLower.isWhitespace = false := by
      rw [← Bool.not_eq_true, char_isWhitespace_iff]; omega
    have hb : c.isWhitespace = false := by
      rw [← Bool.not_eq_true, char_isWhitespace_iff]; omega
    rw [ha, hb]
  · rw [char_toLower_of_not_upper c h]

/-! ### JS string primitives: `toLowerCase`, `trim`, `includes` -/

/-- Model of JS `String.prototype.trim` on character lists: drop leading and
trailing whitespace. -/
def trimList (l : List Char) : List Char :=
  List.rdropWhile Char.isWhitespace (List.dropWhile Char.isWhitespace l)

/-- Model of JS `String.prototype.trim`. -/
def jsTrim (s : String) : String := String.mk (trimList s.data)

/-- Model of JS `String.prototype.toLowerCase` (ASCII). -/
def jsToLower (s : String) : String := String.mk (s.data.map Char.toLower)

/-- Email normalization as done by the module: `email.toLowerCase().trim()`. -/
def normalizeEmail (e : String) : String := jsTrim (jsToLower e)

/-- The fully trimmed list has no leading whitespace left to drop. -/
theorem dropWhile_of_trimmed {α : Type} (p : α → Bool) (l : List α) :
    List.dropWhile p (List.rdropWhile p (List.dropWhile p l)) =
      List.rdropWhile p (List.dropWhile p l) := by
  rw [List.dropWhile_eq_self_iff]
  intro hl
  have hpre : List.rdropWhile p (List.dropWhile p l) <+: List.dropWhile p l :=
    List.rdropWhile_prefix p (List.dropWhile p l)
  have hm := List.dropWhile_idempotent p l
  rw [List.dropWhile_eq_self_iff] at hm
  have hlen : 0 < (List.dropWhile p l).length := Nat.lt_of_lt_of_le hl hpre.length_le
  have hget := hpre.getElem hl
  have hm0 := hm hlen
  simp only [List.get_eq_getElem] at hm0 ⊢
  rw [hget]
  exact hm0

/-- Trimming is idempotent. -/
theorem trimList_idem (l : List Char) : trimList (trimList l) = trimList l := by
  unfold trimList
  rw [dropWhile_of_trimmed]
  exact List.rdropWhile_idempotent _ _

/-- Trimming commutes with lower-casing. -/
theorem trimList_map_toLower (l : List Char) :
    trimList (l.map Char.toLower) = (trimList l).map Char.toLower := by
  have hcomp : (Char.isWhitespace ∘ Char.toLower) = Char.isWhitespace :=
    funext char_isWhitespace_toLower
  unfold trimList
  simp only [List.rdropWhile]
  rw [List.dropWhile_map, hcomp, ← List.map_reverse, List.dropWhile_map, hcomp,
    ← List.map_reverse]

/-- Lower-casing a character list is idempotent. -/
theorem map_toLower_idem (l : List Char) :
    (l.map Char.toLower).map Char.toLower = l.map Char.toLower := by
  rw [List.map_map]
  exact List.map_congr_left (fun c _ => char_toLower_toLower c)

/-- Email normalization is idempotent: a stored (already normalized) email
normalizes to itself. -/
theorem normalizeEmail_idem (e : String) :
    normalizeEmail (normalizeEmail e) = normalizeEmail e := by
  unfold normalizeEmail jsTrim jsToLower
  congr 1
  show trimList ((trimList (e.data.map Char.toLower)).map Char.toLower) =
    trimList (e.data.map Char.toLower)
  rw [← trimList_map_toLower, map_toLower_idem, trimList_idem]

/-! ### Data model -/

/-- A stored user record (`models/user.js`).  `password` holds the bcrypt hash
(the plaintext is never stored); `lastLoginAt` is nullable. -/
structure User where
  id : String
  email : String
  password : String
  name : String
  role : String
  status : String
  createdAt : String
  updatedAt : String
  lastLoginAt : Option String
deriving Repr, DecidableEq

/-- The sanitized projection returned to callers.  JS removes the `password`
key by destructuring; we keep an optional `password` field to model the
possibly-present key of a JS object and sanitization sets it to `none`. -/
structure PublicUser where
  id : String
  email : String
  name : String
  role : String
  status : String
  createdAt : String
  updatedAt : String
  lastLoginAt : Option String
  password : Option String
deriving Repr, DecidableEq

/-- The authenticated actor (`req.currentUser`): an id and a role. -/
structure CurrentUser where
  id : String
  role : String
deriving Repr, DecidableEq

/-- The errors thrown by the module, by message:
`validation` = "Email, password, and name are required",
`conflict` = "User with this email already exists",
`authorization` = "User editing/deletion is restricted to administrators only",
`notFound` = "User not found". -/
inductive ModelError where
  | validation
  | conflict
  | authorization
  | notFound
deriving Repr, DecidableEq

/-- Query options of `getAllUsers` (`{search, status, role}`); `none` models
an absent (`undefined`) key. -/
structure ListOptions where
  search : Option String := none
  status : Option String := none
  role : Option String := none
deriving Repr, DecidableEq

/-- An update patch for `updateUser`.  The JS object can carry arbitrary keys;
we include the allow-listed ones (`name`, `role`, `status`) plus the notable
ignored ones (`email`, `password`). -/
structure UpdatePatch where
  name : Option String := none
  role : Option String := none
  status : Option String := none
  email : Option String := none
  password : Option String := none
deriving Repr, DecidableEq

/-- Result of `getUserStats`. -/
structure UserStats where
  totalUsers : Nat
  activeUsers : Nat
  administrators : Nat
deriving Repr, DecidableEq

/-- JS truthiness of an optional string: `undefined` and `""` are falsy. -/
def truthy (o : Option String) : Bool :=
  match o with
  | none => false
  | some s => !(s == "")

/-- Substring test on character lists (JS `String.prototype.includes`). -/
def containsSub (sub : List Char) : List Char → Bool
  | [] => sub.isEmpty
  | a :: t => sub.isPrefixOf (a :: t) || containsSub sub t

/-- Model of JS `s.includes(sub)`. -/
def strIncludes (s sub : String) : Bool := containsSub sub.data s.data

/-! ### The store and its operations.

The JS store is `const users = new Map()` keyed by `user.id`; we model it as a
`List User` in insertion order.  `users.set(k, v)` replaces in place when the
key is present and appends otherwise. -/

/-- `users.set(id, u)` on a `Map` in insertion order. -/
def mapSet (st : List User) (id : String) (u : User) : List User :=
  if st.any (fun v => v.id == id) then
    st.map (fun v => if v.id == id then u else v)
  else st ++ [u]

/-- `findUserById(id)`: `users.get(id) || null`. -/
def findUserById (st : List User) (id : String) : Option User :=
  st.find? (fun u => u.id == id)

/-- `findUserByEmail(email)`: linear scan for the normalized email. -/
def findUserByEmail (st : List User) (email : String) : Option User :=
  st.find? (fun u => u.email == normalizeEmail email)

/-- `sanitizeUser(user)`: strip the `password` key. -/
def sanitizeUser (u : User) : PublicUser :=
  { id := u.id
    email := u.email
    name := u.name
    role := u.role
    status := u.status
    createdAt := u.createdAt
    updatedAt := u.updatedAt
    lastLoginAt := u.lastLoginAt
    password := none }

/-- The record built by `createUser` before insertion. -/
def newUser (email password name : String) (role : Option String)
    (hash : String → String) (freshId now : String) : User :=
  { id := freshId
    email := normalizeEmail email
    password := hash password
    name := jsTrim name
    role := role.getD "user"
    status := "active"
    createdAt := now
    updatedAt := now
    lastLoginAt := none }

/-- `createUser({email, password, name, role = 'user'})`.  The uuid and the
clock are passed explicitly as `freshId` and `now`; bcrypt hashing as `hash`.
Returns the result together with the post-state (the state is unchanged when
an error is thrown). -/
def createUser (st : List User) (email password name : String) (role : Option String)
    (hash : String → String) (freshId now : String) :
    Except ModelError PublicUser × List User :=
  if email == "" || password == "" || name == "" then
    (Except.error ModelError.validation, st)
  else
    match findUserByEmail st email with
    | some _ => (Except.error ModelError.conflict, st)
    | none =>
      let u : User := newUser email password name role hash freshId now
      (Except.ok (sanitizeUser u), mapSet st u.id u)

/-- `getAllUsers({search, status, role})`: sequential truthiness-guarded
filters, then sanitize. -/
def getAllUsers (st : List User) (opts : ListOptions) : List PublicUser :=
  let r1 :=
    if truthy opts.search then
      let searchLower := jsToLower (opts.search.getD "")
      st.filter (fun u =>
        strIncludes (jsToLower u.name) searchLower ||
        strIncludes (jsToLower u.email) searchLower)
    else st
  let r2 := if truthy opts.status then r1.filter (fun u => u.status == opts.status.getD "") else r1
  let r3 := if truthy opts.role then r2.filter (fun u => u.role == opts.role.getD "") else r2
  r3.map sanitizeUser

/-- `getUserStats()`. -/
def getUserStats (st : List User) : UserStats :=
  { totalUsers := st.length
    activeUsers := (st.filter (fun u => u.status == "active")).length
    administrators := (st.filter (fun u => u.role == "admin")).length }

/-- Whether the actor passes the admin check
(`!currentUser || currentUser.role !== UserRole.ADMIN` throws). -/
def isAdminActor (actor : Option CurrentUser) : Bool :=
  match actor with
  | none => false
  | some a => a.role == "admin"

/-- The record produced by `{...user, ...sanitizedUpdates, updatedAt: now}`
where `sanitizedUpdates` keeps only the allow-listed keys present in the
patch. -/
def applyPatch (u : User) (p : UpdatePatch) (now : String) : User :=
  { u with
    name := p.name.getD u.name
    role := p.role.getD u.role
    status := p.status.getD u.status
    updatedAt := now }

/-- `updateUser(id, updates, currentUser)`. -/
def updateUser (st : List User) (id : String) (p : UpdatePatch)
    (actor : Option CurrentUser) (now : String) :
    Except ModelError PublicUser × List User :=
  if !isAdminActor actor then (Except.error ModelError.authorization, st)
  else
    match findUserById st id with
    | none => (Except.error ModelError.notFound, st)
    | some u =>
      let u2 := applyPatch u p now
      (Except.ok (sanitizeUser u2), mapSet st id u2)

/-- `deleteUser(id, currentUser)`. -/
def deleteUser (st : List User) (id : String) (actor : Option CurrentUser) :
    Except ModelError Bool × List User :=
  if !isAdminActor actor then (Except.error ModelError.authorization, st)
  else if st.any (fun u => u.id == id) then
    (Except.ok true, st.filter (fun u => !(u.id == id)))
  else (Except.error ModelError.notFound, st)

/-- `verifyPassword(email, password)`: returns the sanitized user and the
post-state; `none` both when the email is unknown and when the hash
comparison fails.  On success `lastLoginAt` is set to `now` and the record is
written back. -/
def verifyPassword (st : List User) (email password : String)
    (compare : String → String → Bool) (now : String) :
    Option PublicUser × List User :=
  match findUserByEmail st email with
  | none => (none, st)
  | some u =>
    if compare password u.password then
      let u2 := { u with lastLoginAt := some now }
      (some (sanitizeUser u2), mapSet st u.id u2)
    else (none, st)

/-- `clearUsers()`. -/
def clearUsers : List User := []

/-! ### Store helper lemmas -/

/-- `users.set` on a key that is present replaces in place. -/
theorem mapSet_replace (st : List User) (u0 : User) (hu : u0 ∈ st) (id : String)
    (hid : u0.id = id) (u : User) :
    mapSet st id u = st.map (fun v => if v.id == id then u else v) := by
  have hb : st.any (fun v => v.id == id) = true :=
    List.any_eq_true.mpr ⟨u0, hu, by simp [hid]⟩
  unfold mapSet
  rw [if_pos hb]

/-- `users.set` on an absent key appends. -/
theorem mapSet_append (st : List User) (id : String) (hfresh : ∀ v ∈ st, v.id ≠ id)
    (u : User) : mapSet st id u = st ++ [u] := by
  have hb : st.any (fun v => v.id == id) = false := by
    rw [← Bool.not_eq_true, List.any_eq_true]
    rintro ⟨v, hv, hvid⟩
    exact hfresh v hv (by simpa using hvid)
  unfold mapSet
  rw [if_neg (by simp [hb])]

/-- Two members of a store with no duplicate ids that share an id are equal. -/
theorem eq_of_mem_of_id_eq {st : List User} (hnd : (st.map User.id).Nodup)
    {v w : User} (hv : v ∈ st) (hw : w ∈ st) (h : v.id = w.id) : v = w :=
  List.inj_on_of_nodup_map hnd hv hw h

/-! ### The directory invariant and reachability -/

/-- The invariant maintained by the module: no duplicate ids (the store is a
`Map` keyed by id), every stored email is normalized, and stored emails are
pairwise distinct. -/
def GoodState (st : List User) : Prop :=
  (st.map User.id).Nodup ∧
  (∀ u ∈ st, normalizeEmail u.email = u.email) ∧
  st.Pairwise (fun a b => a.email ≠ b.email)

/-- States reachable from the empty store through the public operations.  The
`hfresh` hypothesis of `create` is the contract of the uuid collaborator:
generated ids never collide with stored ones. -/
inductive Reachable : List User → Prop where
  | empty : Reachable []
  | create (st : List User) (email password name : String) (role : Option String)
      (hash : String → String) (freshId now : String)
      (hfresh : ∀ u ∈ st, u.id ≠ freshId) (hst : Reachable st) :
      Reachable (createUser st email password name role hash freshId now).2
  | login (st : List User) (email password : String)
      (compare : String → String → Bool) (now : String) (hst : Reachable st) :
      Reachable (verifyPassword st email password compare now).2
  | update (st : List User) (id : String) (p : UpdatePatch)
      (actor : Option CurrentUser) (now : String) (hst : Reachable st) :
      Reachable (updateUser st id p actor now).2
  | remove (st : List User) (id : String) (actor : Option CurrentUser)
      (hst : Reachable st) :
      Reachable (deleteUser st id actor).2

/-- Replacing a member by a record with the same id and email preserves the
invariant. -/
theorem goodState_replace {st : List User} (hG : GoodState st) {u u2 : User}
    (hu : u ∈ st) (hid : u2.id = u.id) (hemail : u2.email = u.email) :
    GoodState (st.map (fun v => if v.id == u.id then u2 else v)) := by
  obtain ⟨hnd, hnorm, hpw⟩ := hG
  have hgid : ∀ v ∈ st, (if v.id == u.id then u2 else v).id = v.id := by
    intro v _
    by_cases h : v.id = u.id
    · simp [h, hid]
    · simp [h]
  have hgemail : ∀ v ∈ st, (if v.id == u.id then u2 else v).email = v.email := by
    intro v hv
    by_cases h : v.id = u.id
    · have : v = u := eq_of_mem_of_id_eq hnd hv hu h
      simp [h, hemail, this]
    · simp [h]
  refine ⟨?_, ?_, ?_⟩
  · rw [List.map_map]
    have he : st.map (User.id ∘ fun v => if v.id == u.id then u2 else v) = st.map User.id :=
      List.map_congr_left (fun v hv => hgid v hv)
    rw [he]
    exact hnd
  · intro w hw
    rcases List.mem_map.mp hw with ⟨v, hv, rfl⟩
    by_cases h : v.id = u.id
    · have hvu : v = u := eq_of_mem_of_id_eq hnd hv hu h
      simp only [h, beq_self_eq_true, if_true]
      rw [hemail]
      exact hnorm u hu
    · rw [if_neg (by simpa using h)]
      exact hnorm v hv
  · rw [List.pairwise_map]
    refine List.Pairwise.imp_of_mem ?_ hpw
    intro a b ha hb hab
    rw [hgemail a ha, hgemail b hb]
    exact hab

/-- Appending a record with a fresh id, a normalized email and an email
distinct from every stored one preserves the invariant. -/
theorem goodState_append {st : List User} (hG : GoodState st) (u : User)
    (hid : ∀ v ∈ st, v.id ≠ u.id)
    (hnormu : normalizeEmail u.email = u.email)
    (hemail : ∀ v ∈ st, v.email ≠ u.email) :
    GoodState (st ++ [u]) := by
  obtain ⟨hnd, hnorm, hpw⟩ := hG
  refine ⟨?_, ?_, ?_⟩
  · rw [List.map_append]
    rw [List.nodup_append]
    refine ⟨hnd, List.nodup_singleton _, ?_⟩
    intro a ha hb
    rcases List.mem_map.mp ha with ⟨v, hv, rfl⟩
    rw [List.map_singleton, List.mem_singleton] at hb
    exact hid v hv hb
  · intro v hv
    rcases List.mem_append.mp hv with h | h
    · exact hnorm v h
    · rcases List.mem_singleton.mp h with rfl
      exact hnormu
  · rw [List.pairwise_append]
    refine ⟨hpw, List.pairwise_singleton _ _, ?_⟩
    intro a ha b hb
    rcases List.mem_singleton.mp hb with rfl
    exact hemail a ha

/-- `createUser` preserves the invariant (given the uuid freshness contract). -/
theorem goodState_createUser {st : List User} (hG : GoodState st)
    (email password name : String) (role : Option String) (hash : String → String)
    (freshId now : String) (hfresh : ∀ u ∈ st, u.id ≠ freshId) :
    GoodState (createUser st email password name role hash freshId now).2 := by
  unfold createUser
  split
  · exact hG
  · split
    · exact hG
    · rename_i hnone
      have hmail : ∀ v ∈ st, v.email ≠ normalizeEmail email := by
        intro v hv
        have := List.find?_eq_none.mp hnone v hv
        simpa using this
      show GoodState (mapSet st (newUser email password name role hash freshId now).id
        (newUser email password name role hash freshId now))
      have hidr : (newUser email password name role hash freshId now).id = freshId := rfl
      rw [hidr, mapSet_append st _ (fun v hv => hfresh v hv) _]
      exact goodState_append hG _ (fun v hv => hfresh v hv)
        (normalizeEmail_idem email) hmail

/-- `verifyPassword` preserves the invariant. -/
theorem goodState_verifyPassword {st : List User} (hG : GoodState st)
    (email password : String) (compare : String → String → Bool) (now : String) :
    GoodState (verifyPassword st email password compare now).2 := by
  unfold verifyPassword
  split
  · exact hG
  · rename_i u hu
    split
    · have humem : u ∈ st := List.mem_of_find?_eq_some hu
      show GoodState (mapSet st u.id { u with lastLoginAt := some now })
      rw [mapSet_replace st u humem u.id rfl]
      exact goodState_replace hG humem rfl rfl
    · exact hG

/-- `updateUser` preserves the invariant. -/
theorem goodState_updateUser {st : List User} (hG : GoodState st)
    (id : String) (p : UpdatePatch) (actor : Option CurrentUser) (now : String) :
    GoodState (updateUser st id p actor now).2 := by
  unfold updateUser
  split
  · exact hG
  · split
    · exact hG
    · rename_i u hu
      have humem : u ∈ st := List.mem_of_find?_eq_some hu
      have hid : u.id = id := by simpa using List.find?_some hu
      show GoodState (mapSet st id (applyPatch u p now))
      rw [← hid, mapSet_replace st u humem u.id rfl]
      exact goodState_replace hG humem rfl rfl

/-- `deleteUser` preserves the invariant. -/
theorem goodState_deleteUser {st : List User} (hG : GoodState st)
    (id : String) (actor : Option CurrentUser) :
    GoodState (deleteUser st id actor).2 := by
  unfold deleteUser
  split
  · exact hG
  · split
    · obtain ⟨hnd, hnorm, hpw⟩ := hG
      have hsub : List.Sublist (st.filter (fun u => !(u.id == id))) st :=
        List.filter_sublist st
      exact ⟨hnd.sublist (hsub.map User.id), fun v hv => hnorm v (hsub.subset hv),
        hpw.sublist hsub⟩
    · exact hG

/-- Every reachable state satisfies the invariant. -/
theorem goodState_reachable {st : List User} (h : Reachable st) : GoodState st := by
  induction h with
  | empty => exact ⟨List.nodup_nil, by simp, List.Pairwise.nil⟩
  | create st email password name role hash freshId now hfresh hst ih =>
      exact goodState_createUser ih email password name role hash freshId now hfresh
  | login st email password compare now hst ih =>
      exact goodState_verifyPassword ih email password compare now
  | update st id p actor now hst ih =>
      exact goodState_updateUser ih id p actor now
  | remove st id actor hst ih =>
      exact goodState_deleteUser ih id actor

/-! ### Demo collaborators used by concrete instantiations -/

/-- A concrete stand-in for the bcrypt hash collaborator. -/
def demoHash (s : String) : String := "h:" ++ s

/-- A concrete stand-in for bcrypt comparison, matching `demoHash`. -/
def demoCompare (password stored : String) : Bool := stored == demoHash password

/-- A one-user directory obtained by a signup with a denormalized email. -/
def demoState1 : List User :=
  (createUser [] " A@X.com " "password123" "Ann" none demoHash "id-1" "t1").2

/-! ### Claims -/

/-- C1: Case-insensitive email uniqueness: every directory state reachable
through the public operations has at most one account per normalized
(lower-cased, trimmed) email, and `createUser` on a valid input fails with the
conflict error whenever an account with the same normalized email already
exists (returning the state unchanged).  Every other operation preserves the
uniqueness invariant, which is the reachability induction behind part one. -/
theorem createUser_email_uniqueness :
    (∀ st : List User, Reachable st →
      st.Pairwise (fun a b => normalizeEmail a.email ≠ normalizeEmail b.email)) ∧
    (∀ (st : List User) (email password name : String) (role : Option String)
      (hash : String → String) (freshId now : String), Reachable st →
      email ≠ "" → password ≠ "" → name ≠ "" →
      (∃ u ∈ st, normalizeEmail u.email = normalizeEmail email) →
      createUser st email password name role hash freshId now =
        (Except.error ModelError.conflict, st)) := by
  constructor
  · intro st hreach
    obtain ⟨hnd, hnorm, hpw⟩ := goodState_reachable hreach
    refine List.Pairwise.imp_of_mem ?_ hpw
    intro a b ha hb hab
    rw [hnorm a ha, hnorm b hb]
    exact hab
  · intro st email password name role hash freshId now hreach he hp hn hex
    obtain ⟨hnd, hnorm, hpw⟩ := goodState_reachable hreach
    obtain ⟨u, hu, hueq⟩ := hex
    have hval : (email == "" || password == "" || name == "") = false := by
      simp [he, hp, hn]
    have hfind : ∃ w, findUserByEmail st email = some w := by
      rw [← Option.isSome_iff_exists, findUserByEmail, List.find?_isSome]
      refine ⟨u, hu, ?_⟩
      have heq : u.email = normalizeEmail email := by
        rw [← hueq]
        exact (hnorm u hu).symm
      simp [heq]
    obtain ⟨w, hw⟩ := hfind
    unfold createUser
    rw [hval, hw]
    simp

/-- Witness for C1 at a concrete directory: `demoState1` holds one account
created from `" A@X.com "` and a second signup with `"a@x.com"` hits the
conflict error. -/
theorem createUser_email_uniqueness_witness :
    List.Pairwise (fun a b => normalizeEmail a.email ≠ normalizeEmail b.email) demoState1 ∧
    createUser demoState1 "a@x.com" "password456" "Bob" none demoHash "id-2" "t2" =
      (Except.error ModelError.conflict, demoState1) := by
  have hreach : Reachable demoState1 :=
    Reachable.create [] " A@X.com " "password123" "Ann" none demoHash "id-1" "t1"
      (by intro u hu; cases hu) Reachable.empty
  constructor
  · exact createUser_email_uniqueness.1 demoState1 hreach
  · exact createUser_email_uniqueness.2 demoState1 "a@x.com" "password456" "Bob" none
      demoHash "id-2" "t2" hreach (by decide) (by decide) (by decide) (by decide)

/-- C2: Sanitization: the values returned by `createUser`, `verifyPassword`
(on success), `updateUser`, and every element of `getAllUsers` carry no
password key. -/
theorem returned_values_sanitized :
    (∀ (st : List User) (email password name : String) (role : Option String)
      (hash : String → String) (freshId now : String) (pu : PublicUser),
      (createUser st email password name role hash freshId now).1 = Except.ok pu →
      pu.password = none) ∧
    (∀ (st : List User) (email password : String) (compare : String → String → Bool)
      (now : String) (pu : PublicUser),
      (verifyPassword st email password compare now).1 = some pu →
      pu.password = none) ∧
    (∀ (st : List User) (id : String) (p : UpdatePatch) (actor : Option CurrentUser)
      (now : String) (pu : PublicUser),
      (updateUser st id p actor now).1 = Except.ok pu → pu.password = none) ∧
    (∀ (st : List User) (opts : ListOptions), ∀ pu ∈ getAllUsers st opts,
      pu.password = none) := by
  have hs : ∀ (u : User) (pu : PublicUser), sanitizeUser u = pu → pu.password = none := by
    intro u pu h
    rw [← h]
    rfl
  refine ⟨?_, ?_, ?_, ?_⟩
  · intro st email password name role hash freshId now pu h
    unfold createUser at h
    split at h
    · simp at h
    · split at h
      · simp at h
      · simp only [Except.ok.injEq] at h
        exact hs _ _ h
  · intro st email password compare now pu h
    unfold verifyPassword at h
    split at h
    · simp at h
    · split at h
      · simp only [Option.some.injEq] at h
        exact hs _ _ h
      · simp at h
  · intro st id p actor now pu h
    unfold updateUser at h
    split at h
    · simp at h
    · split at h
      · simp at h
      · simp only [Except.ok.injEq] at h
        exact hs _ _ h
  · intro st opts pu hmem
    unfold getAllUsers at hmem
    rcases List.mem_map.mp hmem with ⟨u, _, hu⟩
    exact hs _ _ hu

/-- Witness for C2: concrete calls on `demoState1` whose returned values have
no password field. -/
theorem returned_values_sanitized_witness :
    (sanitizeUser (newUser " A@X.com " "password123" "Ann" none demoHash "id-1" "t1")).password
      = none ∧
    (sanitizeUser { (newUser " A@X.com " "password123" "Ann" none demoHash "id-1" "t1") with
      lastLoginAt := some "t2" }).password = none ∧
    (sanitizeUser (applyPatch (newUser " A@X.com " "password123" "Ann" none demoHash "id-1" "t1")
      { name := some "Bo" } "t3")).password = none ∧
    (sanitizeUser (newUser " A@X.com " "password123" "Ann" none demoHash "id-1" "t1")).password
      = none := by
  refine ⟨?_, ?_, ?_, ?_⟩
  · exact returned_values_sanitized.1 [] " A@X.com " "password123" "Ann" none demoHash
      "id-1" "t1" _ (by rfl)
  · exact returned_values_sanitized.2.1 demoState1 "a@x.com" "password123" demoCompare
      "t2" _ (by decide)
  · exact returned_values_sanitized.2.2.1 demoState1 "id-1" { name := some "Bo" }
      (some { id := "root", role := "admin" }) "t3" _ (by rfl)
  · exact returned_values_sanitized.2.2.2 demoState1 {} _ (by decide)

/-- Two members of a store with pairwise-distinct emails that share an email
are equal. -/
theorem email_unique_elem {st : List User}
    (hpw : st.Pairwise (fun a b => a.email ≠ b.email))
    {u w : User} (hu : u ∈ st) (hw : w ∈ st) (heq : u.email = w.email) : u = w := by
  by_contra hne
  have hsymm : Symmetric (fun a b : User => a.email ≠ b.email) := by
    intro a b h hba
    exact h hba.symm
  exact (hpw.forall hsymm hu hw hne) heq

/-- Looking up by id after replacing the member with that id finds the
replacement. -/
theorem find?_id_replace (st : List User) (u u2 : User) (hu : u ∈ st)
    (hid : u2.id = u.id) :
    List.find? (fun v => v.id == u.id)
      (st.map (fun v => if v.id == u.id then u2 else v)) = some u2 := by
  induction st with
  | nil => cases hu
  | cons a t ih =>
    by_cases h : a.id = u.id
    · simp only [List.map_cons]
      rw [if_pos (by simpa using h)]
      rw [List.find?_cons_of_pos _ (by simp [hid])]
    · have hmem : u ∈ t := by
        rcases List.mem_cons.mp hu with heq | hm
        · exact absurd (by rw [heq]) h
        · exact hm
      simp only [List.map_cons]
      rw [if_neg (by simpa using h), List.find?_cons_of_neg _ (by simpa using h)]
      exact ih hmem

/-- C3: `verifyPassword` returns a non-null sanitized account iff an account
with the normalized email exists and the password matches its stored hash; it
returns null (a value, never an exception) both when no such account exists
and when the password mismatches, leaving the state unchanged; on success the
stored account's `lastLoginAt` is set to the current time and the mutation is
persisted in the returned state. -/
theorem verifyPassword_spec :
    ∀ (st : List User) (email password : String) (compare : String → String → Bool)
      (now : String),
      st.Pairwise (fun a b => a.email ≠ b.email) →
      (((verifyPassword st email password compare now).1 ≠ none) ↔
        ∃ u ∈ st, u.email = normalizeEmail email ∧ compare password u.password = true) ∧
      ((verifyPassword st email password compare now).1 = none →
        (verifyPassword st email password compare now).2 = st) ∧
      (∀ u ∈ st, u.email = normalizeEmail email → compare password u.password = true →
        (verifyPassword st email password compare now).1 =
          some (sanitizeUser { u with lastLoginAt := some now }) ∧
        findUserById (verifyPassword st email password compare now).2 u.id =
          some { u with lastLoginAt := some now }) := by
  intro st email password compare now hpw
  refine ⟨?_, ?_, ?_⟩
  · constructor
    · intro hne
      unfold verifyPassword at hne
      split at hne
      · exact absurd rfl hne
      · rename_i w hw
        split at hne
        · rename_i hcmp
          exact ⟨w, List.mem_of_find?_eq_some hw, by simpa using List.find?_some hw, hcmp⟩
        · exact absurd rfl hne
    · rintro ⟨u, hu, hmail, hcmp⟩
      have hfind : ∃ w, findUserByEmail st email = some w := by
        rw [← Option.isSome_iff_exists, findUserByEmail, List.find?_isSome]
        exact ⟨u, hu, by simp [hmail]⟩
      obtain ⟨w, hw⟩ := hfind
      have hwu : w = u := by
        refine email_unique_elem hpw (List.mem_of_find?_eq_some hw) hu ?_
        have : w.email = normalizeEmail email := by
          simpa using List.find?_some hw
        rw [this, hmail]
      subst hwu
      unfold verifyPassword
      rw [hw]
      simp [hcmp]
  · intro hnone
    unfold verifyPassword at hnone ⊢
    split
    · rfl
    · rename_i w hw
      by_cases hcmp : compare password w.password = true
      · rw [hw] at hnone
        simp [hcmp] at hnone
      · rw [if_neg hcmp]
  · intro u hu hmail hcmp
    have hfind : ∃ w, findUserByEmail st email = some w := by
      rw [← Option.isSome_iff_exists, findUserByEmail, List.find?_isSome]
      exact ⟨u, hu, by simp [hmail]⟩
    obtain ⟨w, hw⟩ := hfind
    have hwu : w = u := by
      refine email_unique_elem hpw (List.mem_of_find?_eq_some hw) hu ?_
      have : w.email = normalizeEmail email := by
        simpa using List.find?_some hw
      rw [this, hmail]
    subst hwu
    constructor
    · unfold verifyPassword
      rw [hw]
      simp [hcmp]
    · unfold verifyPassword
      rw [hw]
      show findUserById (if compare password w.password = true then
        (some (sanitizeUser { w with lastLoginAt := some now }),
          mapSet st w.id { w with lastLoginAt := some now })
        else (none, st)).2 w.id = some { w with lastLoginAt := some now }
      rw [if_pos hcmp]
      show findUserById (mapSet st w.id { w with lastLoginAt := some now }) w.id =
        some { w with lastLoginAt := some now }
      rw [mapSet_replace st w hu w.id rfl]
      unfold findUserById
      exact find?_id_replace st w _ hu rfl

/-- The record stored in `demoState1`. -/
def demoUser1 : User := newUser " A@X.com " "password123" "Ann" none demoHash "id-1" "t1"

/-- A concrete admin actor. -/
def demoAdmin : CurrentUser := { id := "root", role := "admin" }

/-- A concrete non-admin actor. -/
def demoUserActor : CurrentUser := { id := "id-1", role := "user" }

/-- Witness for C3 on `demoState1`: a denormalized email probe succeeds, a
wrong password leaves the state unchanged and yields null, and a successful
login persists `lastLoginAt`. -/
theorem verifyPassword_spec_witness :
    ((verifyPassword demoState1 "A@x.com " "password123" demoCompare "t9").1 ≠ none) ∧
    ((verifyPassword demoState1 "a@x.com" "wrongpass" demoCompare "t9").1 = none) ∧
    ((verifyPassword demoState1 "a@x.com" "wrongpass" demoCompare "t9").2 = demoState1) ∧
    ((verifyPassword demoState1 "a@x.com" "password123" demoCompare "t9").1 =
      some (sanitizeUser { demoUser1 with lastLoginAt := some "t9" })) ∧
    (findUserById (verifyPassword demoState1 "a@x.com" "password123" demoCompare "t9").2
      demoUser1.id = some { demoUser1 with lastLoginAt := some "t9" }) := by
  have hpw : demoState1.Pairwise (fun a b => a.email ≠ b.email) := by
    decide
  refine ⟨?_, by decide, ?_, ?_, ?_⟩
  · exact (verifyPassword_spec demoState1 "A@x.com " "password123" demoCompare "t9"
      hpw).1.mpr (by decide)
  · exact (verifyPassword_spec demoState1 "a@x.com" "wrongpass" demoCompare "t9"
      hpw).2.1 (by decide)
  · exact ((verifyPassword_spec demoState1 "a@x.com" "password123" demoCompare "t9"
      hpw).2.2 demoUser1 (by decide) (by decide) (by decide)).1
  · exact ((verifyPassword_spec demoState1 "a@x.com" "password123" demoCompare "t9"
      hpw).2.2 demoUser1 (by decide) (by decide) (by decide)).2

/-- C4: Update allow-list / frame: an admin patch to an existing account
rewrites exactly the target record to `applyPatch` of it — `name`, `role`,
`status` are taken from the patch when present, `updatedAt` becomes the
current time, while `id`, `email`, `password` (hash), `createdAt` and
`lastLoginAt` are unchanged; the patch's `email` and `password` entries are
ignored (the patch `p` is arbitrary), and every other stored account is kept
as is. -/
theorem updateUser_frame :
    ∀ (st : List User) (id : String) (p : UpdatePatch) (a : CurrentUser) (now : String)
      (u : User), a.role = "admin" → findUserById st id = some u →
      updateUser st id p (some a) now =
        (Except.ok (sanitizeUser (applyPatch u p now)),
          st.map (fun v => if v.id == id then applyPatch u p now else v)) ∧
      (applyPatch u p now).id = u.id ∧
      (applyPatch u p now).email = u.email ∧
      (applyPatch u p now).password = u.password ∧
      (applyPatch u p now).createdAt = u.createdAt ∧
      (applyPatch u p now).lastLoginAt = u.lastLoginAt ∧
      (applyPatch u p now).name = p.name.getD u.name ∧
      (applyPatch u p now).role = p.role.getD u.role ∧
      (applyPatch u p now).status = p.status.getD u.status ∧
      (applyPatch u p now).updatedAt = now ∧
      (∀ v ∈ st, v.id ≠ id → v ∈ (updateUser st id p (some a) now).2) := by
  intro st id p a now u ha hu
  have humem : u ∈ st := List.mem_of_find?_eq_some hu
  have hid : u.id = id := by simpa using List.find?_some hu
  have hadm : (!isAdminActor (some a)) = false := by simp [isAdminActor, ha]
  have hmain : updateUser st id p (some a) now =
      (Except.ok (sanitizeUser (applyPatch u p now)),
        st.map (fun v => if v.id == id then applyPatch u p now else v)) := by
    unfold updateUser
    rw [hadm, if_neg Bool.false_ne_true]
    simp only [hu]
    rw [mapSet_replace st u humem id hid]
  refine ⟨hmain, rfl, rfl, rfl, rfl, rfl, rfl, rfl, rfl, rfl, ?_⟩
  intro v hv hvne
  rw [hmain]
  exact List.mem_map.mpr ⟨v, hv, by rw [if_neg (by simpa using hvne)]⟩

/-- A patch that tries to smuggle `email` and `password` along with a `name`
change. -/
def demoPatch : UpdatePatch :=
  { name := some "Bo", email := some "evil@x.com", password := some "pwned" }

/-- Witness for C4: an admin applies `demoPatch` to the `demoState1` account;
only `name` and `updatedAt` change. -/
theorem updateUser_frame_witness :
    updateUser demoState1 "id-1" demoPatch (some demoAdmin) "t3" =
      (Except.ok (sanitizeUser (applyPatch demoUser1 demoPatch "t3")),
        demoState1.map (fun v => if v.id == "id-1" then applyPatch demoUser1 demoPatch "t3"
          else v)) ∧
    (applyPatch demoUser1 demoPatch "t3").email = demoUser1.email ∧
    (applyPatch demoUser1 demoPatch "t3").password = demoUser1.password ∧
    (applyPatch demoUser1 demoPatch "t3").name = "Bo" := by
  have h := updateUser_frame demoState1 "id-1" demoPatch demoAdmin "t3" demoUser1 rfl
    (by decide)
  exact ⟨h.1, h.2.2.1, h.2.2.2.1, h.2.2.2.2.2.2.1⟩

/-- C5: Authorization precedence: `updateUser` and `deleteUser` with a
missing or non-admin actor fail with the authorization error regardless of
whether the target id exists; with an admin actor and a nonexistent id they
fail with the not-found error.  The state is returned unchanged in all four
cases. -/
theorem authorization_precedence :
    (∀ (st : List User) (id : String) (p : UpdatePatch) (actor : Option CurrentUser)
      (now : String), (∀ a, actor = some a → a.role ≠ "admin") →
      updateUser st id p actor now = (Except.error ModelError.authorization, st)) ∧
    (∀ (st : List User) (id : String) (actor : Option CurrentUser),
      (∀ a, actor = some a → a.role ≠ "admin") →
      deleteUser st id actor = (Except.error ModelError.authorization, st)) ∧
    (∀ (st : List User) (id : String) (p : UpdatePatch) (a : CurrentUser) (now : String),
      a.role = "admin" → findUserById st id = none →
      updateUser st id p (some a) now = (Except.error ModelError.notFound, st)) ∧
    (∀ (st : List User) (id : String) (a : CurrentUser),
      a.role = "admin" → findUserById st id = none →
      deleteUser st id (some a) = (Except.error ModelError.notFound, st)) := by
  have hnotadm : ∀ actor : Option CurrentUser, (∀ a, actor = some a → a.role ≠ "admin") →
      (!isAdminActor actor) = true := by
    intro actor hna
    cases actor with
    | none => rfl
    | some a => simp [isAdminActor, hna a rfl]
  refine ⟨?_, ?_, ?_, ?_⟩
  · intro st id p actor now hna
    unfold updateUser
    rw [if_pos (hnotadm actor hna)]
  · intro st id actor hna
    unfold deleteUser
    rw [if_pos (hnotadm actor hna)]
  · intro st id p a now ha hnone
    have hadm : (!isAdminActor (some a)) = false := by simp [isAdminActor, ha]
    unfold updateUser
    rw [hadm, if_neg Bool.false_ne_true]
    simp only [hnone]
  · intro st id a ha hnone
    have hadm : (!isAdminActor (some a)) = false := by simp [isAdminActor, ha]
    have hany : (st.any fun u => u.id == id) = false := by
      rw [← Bool.not_eq_true, List.any_eq_true]
      rintro ⟨v, hv, hvp⟩
      exact (List.find?_eq_none.mp hnone v hv) hvp
    unfold deleteUser
    rw [hadm, if_neg Bool.false_ne_true, hany, if_neg Bool.false_ne_true]

/-- Witness for C5: the four outcomes on concrete directories — a missing
actor and a non-admin actor get the authorization error even on an existing
or missing id, and an admin gets not-found on a missing id. -/
theorem authorization_precedence_witness :
    updateUser demoState1 "id-1" demoPatch none "t4" =
      (Except.error ModelError.authorization, demoState1) ∧
    deleteUser demoState1 "no-such-id" (some demoUserActor) =
      (Except.error ModelError.authorization, demoState1) ∧
    updateUser demoState1 "no-such-id" demoPatch (some demoAdmin) "t4" =
      (Except.error ModelError.notFound, demoState1) ∧
    deleteUser demoState1 "no-such-id" (some demoAdmin) =
      (Except.error ModelError.notFound, demoState1) := by
  refine ⟨?_, ?_, ?_, ?_⟩
  · exact authorization_precedence.1 demoState1 "id-1" demoPatch none "t4"
      (fun a ha => Option.noConfusion ha)
  · exact authorization_precedence.2.1 demoState1 "no-such-id" (some demoUserActor)
      (fun a ha => by obtain rfl := Option.some.inj ha; decide)
  · exact authorization_precedence.2.2.1 demoState1 "no-such-id" demoPatch demoAdmin "t4"
      rfl (by decide)
  · exact authorization_precedence.2.2.2 demoState1 "no-such-id" demoAdmin rfl (by decide)

/-- C6: Creation post-state: a successful `createUser` appends exactly one
record whose id is the fresh id (distinct from every stored id by the uuid
contract), with `status = "active"`, `createdAt = updatedAt = now`,
`lastLoginAt = null`, the supplied role (default `"user"`), the lower-cased
trimmed email, and the trimmed name. -/
theorem createUser_post :
    ∀ (st : List User) (email password name : String) (role : Option String)
      (hash : String → String) (freshId now : String),
      email ≠ "" → password ≠ "" → name ≠ "" →
      (∀ v ∈ st, v.id ≠ freshId) →
      findUserByEmail st email = none →
      createUser st email password name role hash freshId now =
        (Except.ok (sanitizeUser (newUser email password name role hash freshId now)),
          st ++ [newUser email password name role hash freshId now]) ∧
      (∀ v ∈ st, v.id ≠ (newUser email password name role hash freshId now).id) ∧
      (newUser email password name role hash freshId now).id = freshId ∧
      (newUser email password name role hash freshId now).status = "active" ∧
      (newUser email password name role hash freshId now).createdAt = now ∧
      (newUser email password name role hash freshId now).updatedAt = now ∧
      (newUser email password name role hash freshId now).lastLoginAt = none ∧
      (newUser email password name role hash freshId now).role = role.getD "user" ∧
      (newUser email password name role hash freshId now).email =
        jsTrim (jsToLower email) ∧
      (newUser email password name role hash freshId now).name = jsTrim name := by
  intro st email password name role hash freshId now he hp hn hfresh hnone
  have hval : (email == "" || password == "" || name == "") = false := by
    simp [he, hp, hn]
  refine ⟨?_, fun v hv => hfresh v hv, rfl, rfl, rfl, rfl, rfl, rfl, rfl, rfl⟩
  unfold createUser
  rw [hval, if_neg Bool.false_ne_true]
  simp only [hnone]
  show (Except.ok (sanitizeUser (newUser email password name role hash freshId now)),
    mapSet st (newUser email password name role hash freshId now).id
      (newUser email password name role hash freshId now)) = _
  have hidr : (newUser email password name role hash freshId now).id = freshId := rfl
  rw [hidr, mapSet_append st freshId (fun v hv => hfresh v hv)]

/-- Witness for C6: a concrete signup on the empty directory. -/
theorem createUser_post_witness :
    createUser [] " A@X.com " "password123" " Ann " none demoHash "id-1" "t1" =
      (Except.ok (sanitizeUser (newUser " A@X.com " "password123" " Ann " none demoHash
        "id-1" "t1")),
        [newUser " A@X.com " "password123" " Ann " none demoHash "id-1" "t1"]) ∧
    (newUser " A@X.com " "password123" " Ann " none demoHash "id-1" "t1").email =
      "a@x.com" ∧
    (newUser " A@X.com " "password123" " Ann " none demoHash "id-1" "t1").name = "Ann" ∧
    (newUser " A@X.com " "password123" " Ann " none demoHash "id-1" "t1").role = "user" := by
  have h := createUser_post [] " A@X.com " "password123" " Ann " none demoHash "id-1" "t1"
    (by decide) (by decide) (by decide) (fun v hv => absurd hv (List.not_mem_nil v))
    (by decide)
  exact ⟨h.1, by decide, by decide, h.2.2.2.2.2.2.2.1⟩

/-- C7: `getAllUsers` filter semantics: the result is exactly the sanitized
sequence of stored accounts that satisfy all supplied filters conjunctively —
a truthy (present, non-empty) search string must occur case-insensitively in
the name or the email, a truthy status filter must equal the status exactly,
and a truthy role filter must equal the role exactly. -/
theorem getAllUsers_filter_semantics :
    ∀ (st : List User) (opts : ListOptions),
      getAllUsers st opts =
        (st.filter (fun u =>
          (!truthy opts.search ||
            (strIncludes (jsToLower u.name) (jsToLower (opts.search.getD "")) ||
              strIncludes (jsToLower u.email) (jsToLower (opts.search.getD "")))) &&
          (!truthy opts.status || (u.status == opts.status.getD "")) &&
          (!truthy opts.role || (u.role == opts.role.getD "")))).map sanitizeUser := by
  intro st opts
  unfold getAllUsers
  by_cases h1 : truthy opts.search <;> by_cases h2 : truthy opts.status <;>
    by_cases h3 : truthy opts.role <;>
      simp [h1, h2, h3, List.filter_filter, Bool.and_assoc, Bool.and_comm,
        Bool.and_left_comm]

/-- C8: `getUserStats` counts the whole directory: the total number of
accounts, the number with status `"active"`, and the number with role
`"admin"`; on the empty directory all three counts are zero. -/
theorem getUserStats_counts :
    (∀ st : List User, getUserStats st =
      { totalUsers := st.length
        activeUsers := st.countP (fun u => u.status == "active")
        administrators := st.countP (fun u => u.role == "admin") }) ∧
    getUserStats [] = { totalUsers := 0, activeUsers := 0, administrators := 0 } := by
  constructor
  · intro st
    unfold getUserStats
    congr 1 <;> rw [List.countP_eq_length_filter]
  · rfl

/-- C9: Delete round-trip: an admin delete of a stored id succeeds, a
subsequent lookup of that id misses, and exactly the accounts with a
different id survive. -/
theorem deleteUser_roundtrip :
    ∀ (st : List User) (id : String) (a : CurrentUser),
      a.role = "admin" → (∃ u ∈ st, u.id = id) →
      (deleteUser st id (some a)).1 = Except.ok true ∧
      findUserById (deleteUser st id (some a)).2 id = none ∧
      (∀ v : User, v ∈ (deleteUser st id (some a)).2 ↔ (v ∈ st ∧ v.id ≠ id)) := by
  intro st id a ha hex
  have hadm : (!isAdminActor (some a)) = false := by simp [isAdminActor, ha]
  have hany : (st.any fun u => u.id == id) = true := by
    rw [List.any_eq_true]
    obtain ⟨u, hu, hid⟩ := hex
    exact ⟨u, hu, by simp [hid]⟩
  have hdel : deleteUser st id (some a) =
      (Except.ok true, st.filter (fun u => !(u.id == id))) := by
    unfold deleteUser
    rw [hadm, if_neg Bool.false_ne_true, hany, if_pos rfl]
  refine ⟨by rw [hdel], ?_, ?_⟩
  · rw [hdel]
    unfold findUserById
    rw [List.find?_eq_none]
    intro x hx
    have := (List.mem_filter.mp hx).2
    simpa using this
  · intro v
    rw [hdel]
    show v ∈ st.filter (fun u => !(u.id == id)) ↔ _
    rw [List.mem_filter]
    simp

/-- Witness for C9: deleting the only account of `demoState1`. -/
theorem deleteUser_roundtrip_witness :
    (deleteUser demoState1 "id-1" (some demoAdmin)).1 = Except.ok true ∧
    findUserById (deleteUser demoState1 "id-1" (some demoAdmin)).2 "id-1" = none ∧
    (demoUser1 ∈ (deleteUser demoState1 "id-1" (some demoAdmin)).2 ↔
      (demoUser1 ∈ demoState1 ∧ demoUser1.id ≠ "id-1")) := by
  have h := deleteUser_roundtrip demoState1 "id-1" demoAdmin rfl (by decide)
  exact ⟨h.1, h.2.1, h.2.2 demoUser1⟩

/-- C10: Atomicity on error: whenever `createUser`, `updateUser` or
`deleteUser` returns an error (validation, conflict, authorization or
not-found), the returned directory state is exactly the input state — no
account is added, removed or modified on the error path. -/
theorem mutation_error_atomicity :
    (∀ (st : List User) (email password name : String) (role : Option String)
      (hash : String → String) (freshId now : String) (e : ModelError),
      (createUser st email password name role hash freshId now).1 = Except.error e →
      (createUser st email password name role hash freshId now).2 = st) ∧
    (∀ (st : List User) (id : String) (p : UpdatePatch) (actor : Option CurrentUser)
      (now : String) (e : ModelError),
      (updateUser st id p actor now).1 = Except.error e →
      (updateUser st id p actor now).2 = st) ∧
    (∀ (st : List User) (id : String) (actor : Option CurrentUser) (e : ModelError),
      (deleteUser st id actor).1 = Except.error e →
      (deleteUser st id actor).2 = st) := by
  refine ⟨?_, ?_, ?_⟩
  · intro st email password name role hash freshId now e
    unfold createUser
    split
    · intro _; rfl
    · split
      · intro _; rfl
      · intro h; simp at h
  · intro st id p actor now e
    unfold updateUser
    split
    · intro _; rfl
    · split
      · intro _; rfl
      · intro h; simp at h
  · intro st id actor e
    unfold deleteUser
    split
    · intro _; rfl
    · split
      · intro h; simp at h
      · intro _; rfl

/-- Witness for C10: the three error paths on concrete inputs leave the
state untouched. -/
theorem mutation_error_atomicity_witness :
    (createUser demoState1 "a@x.com" "pw2" "Eve" none demoHash "id-9" "t9").2 =
      demoState1 ∧
    (updateUser demoState1 "id-1" demoPatch (some demoUserActor) "t9").2 = demoState1 ∧
    (deleteUser demoState1 "no-such-id" (some demoAdmin)).2 = demoState1 := by
  refine ⟨?_, ?_, ?_⟩
  · exact mutation_error_atomicity.1 demoState1 "a@x.com" "pw2" "Eve" none demoHash
      "id-9" "t9" ModelError.conflict (by rfl)
  · exact mutation_error_atomicity.2.1 demoState1 "id-1" demoPatch (some demoUserActor)
      "t9" ModelError.authorization (by rfl)
  · exact mutation_error_atomicity.2.2 demoState1 "no-such-id" (some demoAdmin)
      ModelError.notFound (by rfl)
